import Mathlib

/-!
Verification of the pure core of the `surf` CLI tool (`main.go`).

Strings are modelled as `List Char` (the tool only manipulates byte/char
sequences; all relevant characters are ASCII).  Each definition below is a
direct translation of the corresponding Go function from `main.go`:

* `isPre`           — `strings.HasPrefix`
* `trimPre`         — `strings.TrimPrefix`
* `containsSub`     — `strings.Contains`
* `replaceAll`      — `strings.ReplaceAll` (for non-empty patterns, the only
                      way it is used in the program)
* `goSplit`/`goJoin`— `strings.Split` / `strings.Join` with a one-character
                      separator (the program only splits on "\n" and "x")
* `trimSpace`       — `strings.TrimSpace` (with `unicode.IsSpace`)
* `cleanMarkdown`   — `cleanMarkdown` (main.go:1244)
* `collapseNewlines`— the `for strings.Contains … { ReplaceAll … }` loop
                      inside `cleanMarkdown`
-/

/-- Strings of the Go program, modelled as lists of characters. -/
abbrev S : Type := List Char

def nl : Char := '\n'

/-- `unicode.IsSpace` restricted to the Latin-1 range, exactly the set Go
uses for `strings.TrimSpace`. -/
def isGoSpace (c : Char) : Bool :=
  c = ' ' || c = '\t' || c = '\n' || c = '\x0B' || c = '\x0C' || c = '\r' ||
  c = '\u0085' || c = '\u00A0'

/-- `strings.HasPrefix pat s` (note the argument order: pattern first). -/
def isPre : S → S → Bool
  | [], _ => true
  | _ :: _, [] => false
  | p :: ps, c :: cs => if p = c then isPre ps cs else false

/-- `strings.TrimPrefix s pat` (pattern first here). -/
def trimPre (pat s : S) : S :=
  if isPre pat s then s.drop pat.length else s

/-- `strings.Contains s pat` (pattern first here). -/
def containsSub (pat : S) : S → Bool
  | [] => isPre pat []
  | c :: cs => isPre pat (c :: cs) || containsSub pat cs

/-- `strings.ReplaceAll s pat rep` for a non-empty pattern: replace all
non-overlapping occurrences, scanning left to right.  (Go treats an empty
pattern specially; the program never uses one, and this model leaves the
string unchanged in that case.) -/
def replaceAll (pat rep : S) : S → S
  | [] => []
  | c :: cs =>
    if h : isPre pat (c :: cs) = true ∧ pat ≠ [] then
      rep ++ replaceAll pat rep ((c :: cs).drop pat.length)
    else
      c :: replaceAll pat rep cs
termination_by s => s.length
decreasing_by
  · simp only [List.length_drop, List.length_cons]
    have hp : 0 < pat.length := List.length_pos.mpr h.2
    omega
  · simp only [List.length_cons]
    omega

/-- The pattern `"\n\n\n"`. -/
def nnn : S := ['\n', '\n', '\n']

/-- Basic facts about `isPre` needed before `collapseNewlines` can be
defined (its termination proof needs them). -/
theorem isPre_eq_append (pat : S) : ∀ s : S, isPre pat s = true → s = pat ++ s.drop pat.length := by
  induction pat with
  | nil => intro s _; simp
  | cons p ps ih =>
    intro s hs
    cases s with
    | nil => simp [isPre] at hs
    | cons c cs =>
      simp only [isPre] at hs
      by_cases hpc : p = c
      · subst hpc
        rw [if_pos rfl] at hs
        have := ih cs hs
        simp only [List.length_cons, List.cons_append, List.drop_succ_cons]
        exact congrArg (p :: ·) this
      · rw [if_neg hpc] at hs; exact absurd hs (by simp)

theorem length_le_of_isPre (pat : S) : ∀ s : S, isPre pat s = true → pat.length ≤ s.length := by
  intro s h
  have := isPre_eq_append pat s h
  have hlen := congrArg List.length this
  simp only [List.length_append] at hlen
  omega

theorem replaceAll_length_le (pat rep : S) (hlt : rep.length ≤ pat.length) :
    ∀ s : S, (replaceAll pat rep s).length ≤ s.length := by
  intro s
  induction s using replaceAll.induct pat rep with
  | case1 => simp [replaceAll]
  | case2 c cs h ih =>
    rw [replaceAll, dif_pos h]
    have hp := length_le_of_isPre pat (c :: cs) h.1
    simp only [List.length_append, List.length_drop] at *
    omega
  | case3 c cs h ih =>
    rw [replaceAll, dif_neg h]
    simp only [List.length_cons]
    omega

theorem containsSub_tail (pat : S) (c : Char) (cs : S) (h : containsSub pat cs = true) :
    containsSub pat (c :: cs) = true := by
  simp [containsSub, h]

theorem replaceAll_length_lt (s : S) (h : containsSub nnn s = true) :
    (replaceAll nnn ['\n', '\n'] s).length < s.length := by
  induction s with
  | nil => simp [containsSub, isPre] at h
  | cons c cs ih =>
    by_cases hp : isPre nnn (c :: cs) = true
    · rw [replaceAll, dif_pos ⟨hp, by simp [nnn]⟩]
      have hle := replaceAll_length_le nnn ['\n', '\n'] (by simp [nnn]) ((c :: cs).drop nnn.length)
      have hplen := length_le_of_isPre nnn (c :: cs) hp
      simp only [List.length_append, List.length_drop, List.length_cons] at *
      simp only [nnn, List.length_cons, List.length_nil] at *
      omega
    · rw [replaceAll, dif_neg (by intro hc; exact hp hc.1)]
      have hcs : containsSub nnn cs = true := by
        simp only [containsSub, Bool.or_eq_true] at h
        rcases h with h | h
        · exact absurd h hp
        · exact h
      have := ih hcs
      simp only [List.length_cons]
      omega

/-- The blank-line-collapsing loop of `cleanMarkdown` (main.go:1251):
`for strings.Contains(markdown, "\n\n\n") { markdown = strings.ReplaceAll(markdown, "\n\n\n", "\n\n") }`. -/
def collapseNewlines (s : S) : S :=
  if h : containsSub nnn s = true then
    collapseNewlines (replaceAll nnn ['\n', '\n'] s)
  else
    s
termination_by s.length
decreasing_by
  exact replaceAll_length_lt s h

/-- `strings.Split s (String.singleton sep)`: split on a one-character
separator. -/
def goSplit (sep : Char) : S → List S
  | [] => [[]]
  | c :: cs =>
    if c = sep then [] :: goSplit sep cs
    else
      match goSplit sep cs with
      | [] => [[c]]
      | h :: t => (c :: h) :: t

/-- `strings.Join parts (String.singleton sep)`. -/
def goJoin (sep : Char) : List S → S
  | [] => []
  | [m] => m
  | m :: m2 :: ms => m ++ sep :: goJoin sep (m2 :: ms)

/-- Left half of `strings.TrimSpace`. -/
def trimLeft (s : S) : S := s.dropWhile isGoSpace

/-- Right half of `strings.TrimSpace`. -/
def trimRight (s : S) : S := List.rdropWhile isGoSpace s

/-- `strings.TrimSpace`. -/
def trimSpace (s : S) : S := trimRight (trimLeft s)

def bulStar : S := ['*', ' ']
def bulDash : S := ['-', ' ']

/-- The per-line bullet normalisation of `cleanMarkdown` (main.go:1257-1261):
`if strings.HasPrefix(line, "* ") || strings.HasPrefix(line, "- ") {
   lines[i] = "- " + strings.TrimPrefix(strings.TrimPrefix(line, "* "), "- ") }`. -/
def fixLine (line : S) : S :=
  if isPre bulStar line || isPre bulDash line then
    bulDash ++ trimPre bulDash (trimPre bulStar line)
  else line

def hdr1 : S := ['\n', '#', ' ']
def hdr2 : S := ['\n', '#', '#', ' ']
def hdr3 : S := ['\n', '#', '#', '#', ' ']

/-- `cleanMarkdown` (main.go:1244-1264).  The three header `ReplaceAll`
calls replace each pattern by itself. -/
def cleanMarkdown (markdown : S) : S :=
  let m1 := replaceAll hdr1 hdr1 markdown
  let m2 := replaceAll hdr2 hdr2 m1
  let m3 := replaceAll hdr3 hdr3 m2
  let collapsed := collapseNewlines m3
  let lines := goSplit nl collapsed
  trimSpace (goJoin nl (lines.map fixLine))

/-! ### Basic lemmas about the string primitives -/

theorem isPre_append (p : S) : ∀ x z : S, isPre p x = true → isPre p (x ++ z) = true := by
  induction p with
  | nil => intro x z _; cases x ++ z <;> simp [isPre]
  | cons p ps ih =>
    intro x z hx
    cases x with
    | nil => simp [isPre] at hx
    | cons c cs =>
      simp only [List.cons_append, isPre] at hx ⊢
      by_cases hpc : p = c
      · rw [if_pos hpc] at hx ⊢; exact ih cs z hx
      · rw [if_neg hpc] at hx; exact absurd hx (by simp)

theorem isPre_self_append (p z : S) : isPre p (p ++ z) = true := by
  induction p with
  | nil => cases z <;> simp [isPre]
  | cons c cs ih => simp [isPre, ih]

theorem replaceAll_self (p : S) : ∀ s : S, replaceAll p p s = s := by
  intro s
  induction s using replaceAll.induct p p with
  | case1 => simp [replaceAll]
  | case2 c cs h ih =>
    rw [replaceAll, dif_pos h, ih]
    exact (isPre_eq_append p (c :: cs) h.1).symm
  | case3 c cs h ih =>
    rw [replaceAll, dif_neg h, ih]

theorem collapseNewlines_no3 (s : S) : containsSub nnn (collapseNewlines s) = false := by
  induction s using collapseNewlines.induct with
  | case1 s h ih => rw [collapseNewlines, dif_pos h]; exact ih
  | case2 s h => rw [collapseNewlines, dif_neg h]; exact Bool.not_eq_true _ ▸ (by simpa using h)

theorem collapseNewlines_id (s : S) (h : containsSub nnn s = false) : collapseNewlines s = s := by
  rw [collapseNewlines, dif_neg (by simp [h])]

theorem clean_eq (s : S) :
    cleanMarkdown s = trimSpace (goJoin nl ((goSplit nl (collapseNewlines s)).map fixLine)) := by
  simp only [cleanMarkdown, replaceAll_self]

theorem clean_eval (s : S) (h : containsSub nnn s = false) :
    cleanMarkdown s = trimSpace (goJoin nl ((goSplit nl s).map fixLine)) := by
  rw [clean_eq, collapseNewlines_id s h]

theorem goSplit_ne_nil (sep : Char) (s : S) : goSplit sep s ≠ [] := by
  cases s with
  | nil => simp [goSplit]
  | cons c cs =>
    simp only [goSplit]
    by_cases h : c = sep
    · simp [h]
    · rw [if_neg h]
      cases hg : goSplit sep cs with
      | nil => simp
      | cons a t => simp

theorem goJoin_goSplit (sep : Char) : ∀ s : S, goJoin sep (goSplit sep s) = s := by
  intro s
  induction s with
  | nil => simp [goSplit, goJoin]
  | cons c cs ih =>
    by_cases h : c = sep
    · subst h
      rw [goSplit, if_pos rfl]
      cases hg : goSplit c cs with
      | nil => exact absurd hg (goSplit_ne_nil c cs)
      | cons a t =>
        rw [hg] at ih
        simp only [goJoin]
        rw [ih]
        rfl
    · rw [goSplit, if_neg h]
      cases hg : goSplit sep cs with
      | nil => exact absurd hg (goSplit_ne_nil sep cs)
      | cons a t =>
        rw [hg] at ih
        cases t with
        | nil =>
          simp only [goJoin] at ih ⊢
          rw [ih]
        | cons b ts =>
          simp only [goJoin] at ih ⊢
          rw [List.cons_append, ih]

theorem goSplit_sep_not_mem (sep : Char) : ∀ s : S, ∀ m ∈ goSplit sep s, sep ∉ m := by
  intro s
  induction s with
  | nil => intro m hm; simp [goSplit] at hm; simp [hm]
  | cons c cs ih =>
    intro m hm
    by_cases h : c = sep
    · rw [goSplit, if_pos h] at hm
      rcases List.mem_cons.mp hm with rfl | hm'
      · simp
      · exact ih m hm'
    · rw [goSplit, if_neg h] at hm
      cases hg : goSplit sep cs with
      | nil => exact absurd hg (goSplit_ne_nil sep cs)
      | cons a t =>
        rw [hg] at hm
        rcases List.mem_cons.mp hm with rfl | hm'
        · intro hsep
          rcases List.mem_cons.mp hsep with h1 | h2
          · exact h h1.symm
          · exact ih a (hg ▸ List.mem_cons_self a t) h2
        · exact ih m (hg ▸ List.mem_cons.mpr (Or.inr hm'))

theorem containsSub_nil_pat : ∀ s : S, containsSub [] s = true := by
  intro s
  cases s <;> simp [containsSub, isPre]

theorem containsSub_append_left (p : S) : ∀ x z : S, containsSub p x = true →
    containsSub p (x ++ z) = true := by
  intro x z h
  induction x with
  | nil =>
    simp only [containsSub] at h
    cases p with
    | nil => simpa using containsSub_nil_pat z
    | cons _ _ => simp [isPre] at h
  | cons c cs ih =>
    simp only [containsSub, Bool.or_eq_true] at h
    simp only [List.cons_append, containsSub, Bool.or_eq_true]
    rcases h with h | h
    · exact Or.inl (by simpa using isPre_append p (c :: cs) z h)
    · exact Or.inr (ih h)

theorem containsSub_append_right (p : S) : ∀ x z : S, containsSub p z = true →
    containsSub p (x ++ z) = true := by
  intro x z h
  induction x with
  | nil => simpa
  | cons c cs ih => exact containsSub_tail p c _ ih

theorem containsSub_trimSpace (p w : S) (h : containsSub p (trimSpace w) = true) :
    containsSub p w = true := by
  have h1 : containsSub p (trimLeft w) = true := by
    obtain ⟨r, hr⟩ := List.rdropWhile_prefix isGoSpace (trimLeft w)
    rw [← hr]
    exact containsSub_append_left p _ _ h
  obtain ⟨a, ha⟩ := List.dropWhile_suffix (l := w) (p := isGoSpace)
  rw [← ha]
  exact containsSub_append_right p _ _ h1

theorem containsSub_trimSpace_false (p w : S) (h : containsSub p w = false) :
    containsSub p (trimSpace w) = false := by
  by_contra hc
  rw [Bool.not_eq_false] at hc
  rw [containsSub_trimSpace p w hc] at h
  exact Bool.true_eq_false.mp h

theorem trimLeft_idem (s : S) : trimLeft (trimLeft s) = trimLeft s :=
  List.dropWhile_idempotent _ _

theorem trimSpace_idem (x : S) : trimSpace (trimSpace x) = trimSpace x := by
  have hy : trimLeft (trimLeft x) = trimLeft x := trimLeft_idem x
  set y := trimLeft x with hydef
  have h1 : trimLeft (trimRight y) = trimRight y := by
    cases hz : trimRight y with
    | nil => simp [trimLeft]
    | cons c z' =>
      obtain ⟨r, hr⟩ := List.rdropWhile_prefix isGoSpace y
      rw [show List.rdropWhile isGoSpace y = trimRight y from rfl, hz] at hr
      by_cases hgc : isGoSpace c = true
      · exfalso
        have h3 : trimLeft y = y := hy
        rw [← hr] at h3
        simp only [trimLeft, List.cons_append, List.dropWhile_cons, hgc, if_true] at h3
        have hlen := congrArg List.length h3
        have hle := (List.dropWhile_suffix (l := z' ++ r) isGoSpace).length_le
        simp only [List.length_cons, List.length_append] at hlen hle
        omega
      · simp only [Bool.not_eq_true] at hgc
        simp [trimLeft, List.dropWhile_cons, hgc]
  have h2 : trimRight (trimRight y) = trimRight y := List.rdropWhile_idempotent _ _
  calc trimSpace (trimSpace x) = trimRight (trimLeft (trimRight y)) := rfl
    _ = trimRight (trimRight y) := by rw [h1]
    _ = trimRight y := h2
    _ = trimSpace x := rfl

/-! ### Properties of `fixLine` -/

theorem fixLine_eq_nil_iff (l : S) : fixLine l = [] ↔ l = [] := by
  constructor
  · intro h
    by_cases hb : (isPre bulStar l || isPre bulDash l) = true
    · rw [fixLine, if_pos hb] at h
      simp [bulDash] at h
    · rw [fixLine, if_neg hb] at h
      exact h
  · intro h
    subst h
    rw [fixLine, if_neg (by simp [isPre, bulStar, bulDash])]

theorem fixLine_isEmpty (l : S) : (fixLine l).isEmpty = l.isEmpty := by
  by_cases hl : l = []
  · subst hl
    rw [show fixLine [] = [] from (fixLine_eq_nil_iff []).mpr rfl]
  · have hfn : fixLine l ≠ [] := fun h => hl ((fixLine_eq_nil_iff l).mp h)
    cases hfl : fixLine l with
    | nil => exact absurd hfl hfn
    | cons b m' =>
      cases l with
      | nil => exact absurd rfl hl
      | cons a l' => rfl

theorem fixLine_not_star (l : S) : isPre bulStar (fixLine l) = false := by
  by_cases hb : (isPre bulStar l || isPre bulDash l) = true
  · rw [fixLine, if_pos hb]
    simp [isPre, bulStar, bulDash]
  · rw [fixLine, if_neg hb]
    simp only [Bool.or_eq_true, not_or, Bool.not_eq_true] at hb
    exact hb.1

theorem mem_trimPre (pat s : S) (c : Char) (h : c ∈ trimPre pat s) : c ∈ s := by
  rw [trimPre] at h
  by_cases hp : isPre pat s = true
  · rw [if_pos hp] at h
    exact List.mem_of_mem_drop h
  · rw [if_neg hp] at h
    exact h

theorem fixLine_no_nl (l : S) (h : nl ∉ l) : nl ∉ fixLine l := by
  by_cases hb : (isPre bulStar l || isPre bulDash l) = true
  · rw [fixLine, if_pos hb]
    intro hmem
    rcases List.mem_append.mp hmem with h1 | h2
    · simp [bulDash, nl] at h1
    · exact h (mem_trimPre _ _ _ (mem_trimPre _ _ _ h2))
  · rw [fixLine, if_neg hb]
    exact h

theorem fixLine_of_not_star (m : S) (h : isPre bulStar m = false) : fixLine m = m := by
  have hstar : trimPre bulStar m = m := by rw [trimPre, if_neg (by simp [h])]
  by_cases hd : isPre bulDash m = true
  · rw [fixLine, if_pos (by simp [hd]), hstar, trimPre, if_pos hd]
    exact (isPre_eq_append bulDash m hd).symm
  · rw [fixLine, if_neg (by simp [h, hd])]

theorem fixLine_star (l : S) (h : isPre bulStar l = true) :
    fixLine l = bulDash ++ trimPre bulDash (l.drop 2) := by
  have hstar : trimPre bulStar l = l.drop 2 := by rw [trimPre, if_pos h]; simp [bulStar]
  rw [fixLine, if_pos (by simp [h]), hstar]

/-! ### No three consecutive newlines in the cleaned output -/

/-- The effect of joining a list of newline-free lines on the presence of
`"\n\n\n"` depends only on which lines are empty; `maskRun k mask` computes
it, with `k` pending newline characters before the first line. -/
def maskRun : Nat → List Bool → Bool
  | k, [] => decide (3 ≤ k)
  | k, [_] => decide (3 ≤ k)
  | k, e :: e2 :: es => if 3 ≤ k then true else if e then maskRun (k + 1) (e2 :: es) else maskRun 1 (e2 :: es)

theorem maskRun_ge3 (es : List Bool) (k : Nat) (h : 3 ≤ k) : maskRun k es = true := by
  match es with
  | [] => simp [maskRun, h]
  | [_] => simp [maskRun, h]
  | e :: e2 :: es' => rw [maskRun, if_pos h]

theorem isPre_twoNl (x : S) (hx : x.head? ≠ some nl) :
    ∀ k, isPre [nl, nl] (List.replicate k nl ++ x) = decide (2 ≤ k) := by
  intro k
  match k with
  | 0 =>
    cases x with
    | nil => simp [isPre]
    | cons c cs =>
      have hc : ¬(nl = c) := fun h => hx (by simp [h.symm])
      simp [isPre, hc]
  | 1 =>
    cases x with
    | nil => simp [isPre]
    | cons c cs =>
      have hc : ¬(nl = c) := fun h => hx (by simp [h.symm])
      simp [isPre, hc]
  | (k + 2) =>
    simp [List.replicate_succ, isPre]

theorem containsSub_replicate (x : S) (hx : x.head? ≠ some nl) :
    ∀ k, containsSub nnn (List.replicate k nl ++ x) = (decide (3 ≤ k) || containsSub nnn x) := by
  intro k
  induction k with
  | zero => simp
  | succ k ih =>
    rw [List.replicate_succ, List.cons_append, containsSub]
    have h1 : isPre nnn (nl :: (List.replicate k nl ++ x)) = isPre [nl, nl] (List.replicate k nl ++ x) := by
      simp [nnn, isPre, nl]
    rw [h1, isPre_twoNl x hx k, ih]
    have h2 : decide (2 ≤ k) = decide (3 ≤ k + 1) := by
      simp only [decide_eq_decide]; omega
    rw [h2]
    by_cases h3 : 3 ≤ k
    · have h4 : 3 ≤ k + 1 := by omega
      simp [h3, h4]
    · by_cases h5 : 3 ≤ k + 1 <;> simp [h3, h5]

theorem containsSub_replicate_nil (k : Nat) :
    containsSub nnn (List.replicate k nl) = decide (3 ≤ k) := by
  have := containsSub_replicate [] (by simp) k
  simp only [List.append_nil] at this
  rw [this]
  simp [containsSub, isPre, nnn]

theorem containsSub_nlHead_append (q a : S) (ha : nl ∉ a) :
    ∀ x : S, containsSub (nl :: q) (a ++ x) = containsSub (nl :: q) x := by
  intro x
  induction a with
  | nil => simp
  | cons c a' ih =>
    have hc : c ≠ nl := fun h => ha (by rw [h]; exact List.mem_cons_self nl a')
    have ih' := ih (fun h => ha (List.mem_cons.mpr (Or.inr h)))
    have hpre : isPre (nl :: q) (c :: (a' ++ x)) = false := by
      simp only [isPre]
      rw [if_neg (fun h => hc h.symm)]
    show containsSub (nl :: q) (c :: (a' ++ x)) = containsSub (nl :: q) x
    rw [containsSub, hpre, ih']
    simp

theorem containsSub_nnn_append (a : S) (ha : nl ∉ a) (x : S) :
    containsSub nnn (a ++ x) = containsSub nnn x :=
  containsSub_nlHead_append [nl, nl] a ha x

theorem c3_goJoin : ∀ (A : List S), (∀ m ∈ A, nl ∉ m) → ∀ (k : Nat),
    containsSub nnn (List.replicate k nl ++ goJoin nl A) = maskRun k (A.map fun m => m.isEmpty) := by
  intro A
  induction A with
  | nil =>
    intro _ k
    simp only [goJoin, List.append_nil, List.map_nil]
    rw [containsSub_replicate_nil k, maskRun]
  | cons a A' ih =>
    intro hmem k
    cases A' with
    | nil =>
      cases a with
      | nil =>
        simp only [goJoin, List.append_nil, List.map_cons, List.map_nil]
        rw [containsSub_replicate_nil k]
        rfl
      | cons c a' =>
        have hanl : nl ∉ c :: a' := hmem _ (List.mem_cons_self _ _)
        have hx : (c :: a').head? ≠ some nl := by
          have hc : c ≠ nl := fun h => hanl (h ▸ List.mem_cons_self _ _)
          simp [hc]
        rw [show goJoin nl [c :: a'] = c :: a' from rfl]
        rw [containsSub_replicate (c :: a') hx k]
        have hca : containsSub nnn (c :: a') = false := by
          have h1 := containsSub_nnn_append (c :: a') hanl []
          rw [List.append_nil] at h1
          exact h1.trans rfl
        rw [hca]
        simp only [Bool.or_false]
        rfl
    | cons b A'' =>
      have hmem' : ∀ m ∈ b :: A'', nl ∉ m := fun m hm => hmem m (List.mem_cons.mpr (Or.inr hm))
      have ihb := ih hmem'
      cases a with
      | nil =>
        have hrepl : List.replicate k nl ++ (([] : S) ++ nl :: goJoin nl (b :: A''))
            = List.replicate (k + 1) nl ++ goJoin nl (b :: A'') := by
          simp [List.replicate_succ']
        rw [show goJoin nl ([] :: b :: A'') = ([] : S) ++ nl :: goJoin nl (b :: A'') from rfl]
        rw [hrepl, ihb (k + 1)]
        simp only [List.map_cons]
        rw [show (([] : S).isEmpty) = true from rfl, maskRun]
        by_cases h3 : 3 ≤ k
        · rw [if_pos h3]
          exact maskRun_ge3 _ _ (by omega)
        · rw [if_neg h3, if_pos rfl]
      | cons c a' =>
        have hanl : nl ∉ c :: a' := hmem _ (List.mem_cons_self _ _)
        have hc : c ≠ nl := fun h => hanl (h ▸ List.mem_cons_self _ _)
        have hx : ((c :: a') ++ nl :: goJoin nl (b :: A'')).head? ≠ some nl := by
          simp [hc]
        rw [show goJoin nl ((c :: a') :: b :: A'') = (c :: a') ++ nl :: goJoin nl (b :: A'') from rfl]
        rw [containsSub_replicate _ hx k]
        rw [containsSub_nnn_append (c :: a') hanl (nl :: goJoin nl (b :: A''))]
        rw [show (nl :: goJoin nl (b :: A'')) = List.replicate 1 nl ++ goJoin nl (b :: A'') from rfl]
        rw [ihb 1]
        simp only [List.map_cons]
        rw [show ((c :: a' : S).isEmpty) = false from rfl, maskRun]
        by_cases h3 : 3 ≤ k
        · simp [h3]
        · simp [h3]

theorem map_isEmpty_fixLine (L : List S) :
    (L.map fixLine).map (fun m => m.isEmpty) = L.map (fun m => m.isEmpty) := by
  induction L with
  | nil => rfl
  | cons a L' ih => simp only [List.map_cons, ih, fixLine_isEmpty]

theorem mem_map_fixLine_no_nl (L : List S) (hL : ∀ m ∈ L, nl ∉ m) :
    ∀ m ∈ L.map fixLine, nl ∉ m := by
  intro m hm
  obtain ⟨l, hl, rfl⟩ := List.mem_map.mp hm
  exact fixLine_no_nl l (hL l hl)

theorem no3_joined (u : S) (h : containsSub nnn u = false) :
    containsSub nnn (goJoin nl ((goSplit nl u).map fixLine)) = false := by
  have hL : ∀ m ∈ goSplit nl u, nl ∉ m := goSplit_sep_not_mem nl u
  have hL' := mem_map_fixLine_no_nl (goSplit nl u) hL
  have e1 := c3_goJoin ((goSplit nl u).map fixLine) hL' 0
  have e2 := c3_goJoin (goSplit nl u) hL 0
  simp only [List.replicate, List.nil_append] at e1 e2
  rw [e1, map_isEmpty_fixLine, ← e2, goJoin_goSplit]
  exact h

/-- The cleaned markdown never contains three consecutive newlines. -/
theorem clean_no3 (s : S) : containsSub nnn (cleanMarkdown s) = false := by
  rw [clean_eq]
  exact containsSub_trimSpace_false _ _ (no3_joined _ (collapseNewlines_no3 _))

/-! ### No interior line of the cleaned output starts with a star bullet -/

/-- The string `"\n* "`: its presence is exactly "some non-first line starts
with a star bullet". -/
def nlStar : S := ['\n', '*', ' ']

theorem containsSub_nlStar_append (a : S) (ha : nl ∉ a) (x : S) :
    containsSub nlStar (a ++ x) = containsSub nlStar x :=
  containsSub_nlHead_append ['*', ' '] a ha x

theorem isPre_nil_pat (z : S) : isPre [] z = true := by
  cases z <;> rfl

theorem containsSub_head_mem (c : Char) (p : S) :
    ∀ s : S, containsSub (c :: p) s = true → c ∈ s := by
  intro s
  induction s with
  | nil => intro h; simp [containsSub, isPre] at h
  | cons d ds ih =>
    intro h
    simp only [containsSub, Bool.or_eq_true] at h
    rcases h with h | h
    · simp only [isPre] at h
      by_cases hcd : c = d
      · exact hcd ▸ List.mem_cons_self c ds
      · rw [if_neg hcd] at h; exact absurd h (by simp)
    · exact List.mem_cons.mpr (Or.inr (ih h))

theorem containsSub_nlStar_of_no_nl (m : S) (h : nl ∉ m) : containsSub nlStar m = false := by
  by_contra hc
  rw [Bool.not_eq_false] at hc
  exact h (containsSub_head_mem nl ['*', ' '] m hc)

theorem isPre_nlStar_cons (cs : S) : isPre nlStar (nl :: cs) = isPre bulStar cs := by
  simp [nlStar, bulStar, isPre, nl]

theorem star_not_pre_goJoin : ∀ M : List S, (∀ m ∈ M, isPre bulStar m = false) →
    isPre bulStar (goJoin nl M) = false := by
  intro M hM
  match M with
  | [] => rfl
  | [m] => exact hM m (List.mem_cons_self _ _)
  | m :: m2 :: ms =>
    show isPre bulStar (m ++ nl :: goJoin nl (m2 :: ms)) = false
    match m with
    | [] =>
      show isPre bulStar (nl :: goJoin nl (m2 :: ms)) = false
      simp [bulStar, isPre, nl]
    | [c] =>
      show isPre bulStar (c :: nl :: goJoin nl (m2 :: ms)) = false
      by_cases hc : '*' = c
      · simp [bulStar, isPre, hc, nl]
      · simp [bulStar, isPre, hc]
    | c1 :: c2 :: m' =>
      have hm : isPre bulStar (c1 :: c2 :: m') = false := hM _ (List.mem_cons_self _ _)
      show isPre bulStar (c1 :: c2 :: (m' ++ nl :: goJoin nl (m2 :: ms))) = false
      simp only [bulStar, isPre, isPre_nil_pat] at hm ⊢
      by_cases h1 : '*' = c1
      · rw [if_pos h1] at hm ⊢
        by_cases h2 : ' ' = c2
        · rw [if_pos h2] at hm
          exact absurd hm (by simp)
        · rw [if_neg h2]
      · rw [if_neg h1]

theorem noNlStar_joined : ∀ M : List S, (∀ m ∈ M, nl ∉ m) →
    (∀ m ∈ M, isPre bulStar m = false) →
    containsSub nlStar (goJoin nl M) = false := by
  intro M
  induction M with
  | nil => intro _ _; rfl
  | cons m M' ih =>
    intro hnl hstar
    cases M' with
    | nil => exact containsSub_nlStar_of_no_nl m (hnl m (List.mem_cons_self _ _))
    | cons m2 ms =>
      have hnl' : ∀ x ∈ m2 :: ms, nl ∉ x := fun x hx => hnl x (List.mem_cons.mpr (Or.inr hx))
      have hstar' : ∀ x ∈ m2 :: ms, isPre bulStar x = false :=
        fun x hx => hstar x (List.mem_cons.mpr (Or.inr hx))
      show containsSub nlStar (m ++ nl :: goJoin nl (m2 :: ms)) = false
      rw [containsSub_nlStar_append m (hnl m (List.mem_cons_self _ _))]
      rw [containsSub, isPre_nlStar_cons]
      rw [star_not_pre_goJoin (m2 :: ms) hstar', ih hnl' hstar']
      rfl

/-- The cleaned output never contains a line other than the first that
starts with `"* "`. -/
theorem clean_no_nlStar (s : S) : containsSub nlStar (cleanMarkdown s) = false := by
  rw [clean_eq]
  apply containsSub_trimSpace_false
  apply noNlStar_joined
  · exact mem_map_fixLine_no_nl _ (goSplit_sep_not_mem nl _)
  · intro m hm
    obtain ⟨l, _, rfl⟩ := List.mem_map.mp hm
    exact fixLine_not_star l

theorem goSplit_head_append (sep : Char) (s : S) (h' : S) (rest : List S)
    (hg : goSplit sep s = h' :: rest) : ∃ z, s = h' ++ z := by
  have hj := goJoin_goSplit sep s
  rw [hg] at hj
  cases rest with
  | nil => exact ⟨[], by rw [← hj]; simp [goJoin]⟩
  | cons r rs => exact ⟨sep :: goJoin sep (r :: rs), by rw [← hj, goJoin]⟩

theorem goSplit_tail_not_star : ∀ t : S, containsSub nlStar t = false →
    ∀ m ∈ (goSplit nl t).tail, isPre bulStar m = false := by
  intro t
  induction t with
  | nil => intro _ m hm; simp [goSplit] at hm
  | cons c cs ih =>
    intro h m hm
    have hsplit : isPre nlStar (c :: cs) = false ∧ containsSub nlStar cs = false := by
      simpa [containsSub] using h
    by_cases hc : c = nl
    · subst hc
      rw [goSplit, if_pos rfl] at hm
      simp only [List.tail_cons] at hm
      have hstarcs : isPre bulStar cs = false := by
        have hp := hsplit.1
        rwa [isPre_nlStar_cons] at hp
      cases hg : goSplit nl cs with
      | nil => exact absurd hg (goSplit_ne_nil nl cs)
      | cons h' rest =>
        rw [hg] at hm
        rcases List.mem_cons.mp hm with rfl | hm'
        · by_contra hstar
          rw [Bool.not_eq_false] at hstar
          obtain ⟨z, hz⟩ := goSplit_head_append nl cs m rest hg
          rw [hz, isPre_append bulStar m z hstar] at hstarcs
          exact absurd hstarcs (by simp)
        · have htail := ih hsplit.2
          rw [hg] at htail
          exact htail m (by simpa using hm')
    · rw [goSplit, if_neg hc] at hm
      cases hg : goSplit nl cs with
      | nil => exact absurd hg (goSplit_ne_nil nl cs)
      | cons h' rest =>
        rw [hg] at hm
        simp only [List.tail_cons] at hm
        have htail := ih hsplit.2
        rw [hg] at htail
        exact htail m (by simpa using hm)

theorem lines_not_star (t : S) (h1 : isPre bulStar t = false)
    (h2 : containsSub nlStar t = false) :
    ∀ m ∈ goSplit nl t, isPre bulStar m = false := by
  intro m hm
  cases hg : goSplit nl t with
  | nil => exact absurd hg (goSplit_ne_nil nl t)
  | cons h' rest =>
    rw [hg] at hm
    rcases List.mem_cons.mp hm with rfl | hm'
    · by_contra hstar
      rw [Bool.not_eq_false] at hstar
      obtain ⟨z, hz⟩ := goSplit_head_append nl t m rest hg
      rw [hz, isPre_append bulStar m z hstar] at h1
      exact absurd h1 (by simp)
    · have htail := goSplit_tail_not_star t h2
      rw [hg] at htail
      exact htail m (by simpa using hm')

theorem map_fixLine_id (M : List S) (h : ∀ m ∈ M, isPre bulStar m = false) :
    M.map fixLine = M := by
  induction M with
  | nil => rfl
  | cons a M' ih =>
    simp only [List.map_cons]
    rw [fixLine_of_not_star a (h a (List.mem_cons_self _ _)),
      ih (fun m hm => h m (List.mem_cons.mpr (Or.inr hm)))]

theorem clean_trimSpace (s : S) : trimSpace (cleanMarkdown s) = cleanMarkdown s := by
  rw [clean_eq]
  exact trimSpace_idem _

/-- `cleanMarkdown` is idempotent on every input whose cleaned form does not
itself begin with `"* "`. -/
theorem clean_idem_of_not_star (s : S) (h : isPre bulStar (cleanMarkdown s) = false) :
    cleanMarkdown (cleanMarkdown s) = cleanMarkdown s := by
  have hno3 : containsSub nnn (cleanMarkdown s) = false := clean_no3 s
  have hnlstar : containsSub nlStar (cleanMarkdown s) = false := clean_no_nlStar s
  rw [clean_eval (cleanMarkdown s) hno3]
  rw [map_fixLine_id _ (lines_not_star _ h hnlstar)]
  rw [goJoin_goSplit]
  exact clean_trimSpace s

/-! ### Truncation step (processRequest, main.go:879-884) -/

/-- The notice appended on truncation:
`fmt.Sprintf("\n\n... (output truncated after %d chars, full content was %d chars)", config.TruncateAfter, len(text))`. -/
def truncNotice (truncateAfter : Int) (fullLen : Nat) : S :=
  ("\n\n... (output truncated after ".toList) ++ (toString truncateAfter).toList ++
  (" chars, full content was ".toList) ++ (toString fullLen).toList ++ (" chars)".toList)

/-- Lines 879-884 of `processRequest`: clean the converted text, then
truncate if the cleaned markdown exceeds the limit.  `text` is the output of
the external `html2text` conversion, an opaque input here.  Note that the
notice reports `len(text)`, the length of the raw converted text. -/
def truncateMarkdown (text : S) (truncateAfter : Int) : S :=
  let markdown := cleanMarkdown text
  if truncateAfter < (markdown.length : Int) then
    markdown.take truncateAfter.toNat ++ truncNotice truncateAfter text.length
  else markdown

/-! ### URL protocol normalisation (main.go:1236-1241) -/

def httpPre : S := "http://".toList
def httpsPre : S := "https://".toList

/-- `ensureProtocol` (main.go:1236-1241). -/
def ensureProtocol (url : S) : S :=
  if isPre httpPre url = false ∧ isPre httpsPre url = false then httpPre ++ url else url

/-! ### Numeric parsing (`strconv.Atoi`) and `parseWindowSize` -/

def digitVal (c : Char) : Option Nat :=
  if '0' ≤ c ∧ c ≤ '9' then some (c.toNat - '0'.toNat) else none

def parseDigits : Nat → List Char → Option Nat
  | acc, [] => some acc
  | acc, c :: cs =>
    match digitVal c with
    | some d => parseDigits (acc * 10 + d) cs
    | none => none

def int64Min : Int := -9223372036854775808
def int64Max : Int := 9223372036854775807

/-- `strconv.Atoi` (base 10, 64-bit `int`): optional sign, one or more
decimal digits, error on anything else or on overflow. -/
def atoi (s : S) : Option Int :=
  let signDigits : Bool × S :=
    match s with
    | '+' :: t => (false, t)
    | '-' :: t => (true, t)
    | t => (false, t)
  match signDigits with
  | (_, []) => none
  | (neg, ds) =>
    match parseDigits 0 ds with
    | none => none
    | some n =>
      let v : Int := if neg then -(n : Int) else (n : Int)
      if v < int64Min ∨ int64Max < v then none else some v

/-- The second half of `parseWindowSize` (main.go:1227-1232): `strconv.Atoi`
on each part, the `1280, 720` default if either errs. -/
def windowPair (a b : S) : Int × Int :=
  match atoi a with
  | some w =>
    match atoi b with
    | some h => (w, h)
    | none => (1280, 720)
  | none => (1280, 720)

/-- `parseWindowSize` (main.go:1222-1233). -/
def parseWindowSize (size : S) : Int × Int :=
  match goSplit 'x' size with
  | [a, b] => windowPair a b
  | _ => (1280, 720)

/-! ### The argument parser (`parseArgs`, main.go:990-1081) -/

structure FormInput where
  Name : S
  Value : S
deriving DecidableEq

structure Config where
  URL : S
  Profile : S
  FormID : S
  Inputs : List FormInput
  AfterSubmitURL : S
  JSCode : S
  ScreenshotPath : S
  TruncateAfter : Int
  RawFlag : Bool
  Headful : Bool
  WindowSize : S
  Session : S
  StopSession : Bool
  Stealth : Bool
deriving DecidableEq

/-- The configuration value built at the top of `parseArgs`: Go zero values
plus the two explicit defaults. -/
def defaultConfig : Config :=
  { URL := [], Profile := "default".toList, FormID := [], Inputs := [],
    AfterSubmitURL := [], JSCode := [], ScreenshotPath := [],
    TruncateAfter := 100000, RawFlag := false, Headful := false,
    WindowSize := [], Session := [], StopSession := false, Stealth := false }

/-- One iteration of the flag loop of `parseArgs` (the `switch` body,
main.go:997-1077): given the current configuration, the token at index `i`
and the tokens after it, return `none` for the `os.Exit(0)` of
`--help`/`--quickstart`, otherwise the updated configuration together with
the number of extra tokens consumed (the `i++` increments of the branch). -/
def parseStep (config : Config) (arg : S) (rest : List S) : Option (Config × Nat) :=
  if arg = "--help".toList then none
  else if arg = "--quickstart".toList then none
  else if arg = "--raw".toList then some ({ config with RawFlag := true }, 0)
  else if arg = "--truncate-after".toList then
    match rest with
    | [] => some (config, 0)
    | v :: _ =>
      match atoi v with
      | some val =>
        if 0 < val then some ({ config with TruncateAfter := val }, 1)
        else some (config, 1)
      | none => some (config, 1)
  else if arg = "--screenshot".toList then
    match rest with
    | [] => some (config, 0)
    | v :: _ => some ({ config with ScreenshotPath := v }, 1)
  else if arg = "--form".toList then
    match rest with
    | [] => some (config, 0)
    | v :: _ => some ({ config with FormID := v }, 1)
  else if arg = "--input".toList then
    match rest with
    | [] => some (config, 0)
    | nameArg :: rest2 =>
      match rest2 with
      | [] => some (config, 1)
      | t :: rest3 =>
        if t = "--value".toList then
          match rest3 with
          | [] => some (config, 2)
          | v :: _ =>
            some ({ config with Inputs := config.Inputs ++ [{ Name := nameArg, Value := v }] }, 3)
        else some (config, 1)
  else if arg = "--value".toList then some (config, 0)
  else if arg = "--after-submit".toList then
    match rest with
    | [] => some (config, 0)
    | v :: _ => some ({ config with AfterSubmitURL := ensureProtocol v }, 1)
  else if arg = "--js".toList then
    match rest with
    | [] => some (config, 0)
    | v :: _ => some ({ config with JSCode := v }, 1)
  else if arg = "--profile".toList then
    match rest with
    | [] => some (config, 0)
    | v :: _ => some ({ config with Profile := v }, 1)
  else if arg = "--headful".toList then some ({ config with Headful := true }, 0)
  else if arg = "--window-size".toList then
    match rest with
    | [] => some (config, 0)
    | v :: _ => some ({ config with WindowSize := v }, 1)
  else if arg = "--session".toList then
    match rest with
    | [] => some (config, 0)
    | v :: _ => some ({ config with Session := v }, 1)
  else if arg = "--stop".toList then some ({ config with StopSession := true }, 0)
  else if arg = "--stealth".toList then some ({ config with Stealth := true }, 0)
  else
    some ((if config.URL = [] ∧ isPre ("--".toList) arg = false then { config with URL := arg }
           else config), 0)

/-- The flag loop of `parseArgs` (main.go:996-1078), iterating `parseStep`
until the token list is exhausted; `rest.drop k` skips the extra tokens the
branch consumed. -/
def parseLoop : Config → List S → Option Config
  | config, [] => some config
  | config, arg :: rest =>
    match parseStep config arg rest with
    | none => none
    | some (config', k) => parseLoop config' (rest.drop k)
termination_by _ args => args.length
decreasing_by
  simp only [List.length_cons, List.length_drop]
  omega

/-- `parseArgs` (main.go:990). -/
def parseArgs (args : List S) : Option Config := parseLoop defaultConfig args

/-! ### The branch structure of `main` (main.go:245-282) -/

inductive MainOutcome where
  | helpExit0 : MainOutcome
  | stopErrExit1 : MainOutcome
  | stopRun : S → MainOutcome
  | usageExit1 : MainOutcome
  | runRequest : Config → MainOutcome
deriving DecidableEq

/-- The message printed to stderr by the stop-without-session branch
(main.go:251), before exiting with status 1. -/
def stopErrMsg : S := "Error: --stop requires --session <id>\n".toList

/-- `main` up to the first side effect: `--stop` handling comes first, then
the missing-URL check, then Chromium provisioning and `processRequest`. -/
def mainDispatch (args : List S) : MainOutcome :=
  match parseArgs args with
  | none => MainOutcome.helpExit0
  | some config =>
    if config.StopSession then
      if config.Session = [] then MainOutcome.stopErrExit1
      else MainOutcome.stopRun config.Session
    else if config.URL = [] then MainOutcome.usageExit1
    else MainOutcome.runRequest config

/-! ### Output assembly (processRequest, main.go:887-897) -/

/-- The `=` line of the output header banner (main.go:887). -/
def headerEq : S := "==========================".toList

/-- Lines 887-897 of `processRequest`: the final output string, from the
protocol-normalised URL, the cleaned-and-truncated markdown and the
captured console messages. -/
def assembleResult (baseURL markdown : S) (consoleMessages : List S) : S :=
  let result := headerEq ++ '\n' :: (baseURL ++ '\n' :: (headerEq ++ '\n' :: '\n' :: markdown))
  if 0 < consoleMessages.length then
    consoleMessages.foldl (fun r msg => r ++ msg ++ ['\n'])
      (result ++ '\n' :: '\n' ::
        (List.replicate 50 '=' ++ '\n' ::
          ("CONSOLE OUTPUT:".toList ++ '\n' :: (List.replicate 50 '=' ++ ['\n']))))
  else result

/-- The markdown-mode tail of `processRequest` (main.go:873-897), taking the
`html2text` output `text` as an opaque input. -/
def renderMarkdown (config : Config) (text : S) (consoleMessages : List S) : S :=
  assembleResult (ensureProtocol config.URL) (truncateMarkdown text config.TruncateAfter)
    consoleMessages

/-! ### The form-handling step (main.go:782-788 and `handleForm`, 929-988) -/

inductive BrowserAction where
  | waitVisible : S → BrowserAction
  | clearSel : S → BrowserAction
  | sendKeys : S → S → BrowserAction
  | clickSel : S → BrowserAction
  | evalJS : S → BrowserAction
deriving DecidableEq

/-- `fmt.Sprintf("#%s input[name='%s']", config.FormID, input.Name)`. -/
def inputSelector (formID nameAttr : S) : S :=
  '#' :: (formID ++ (" input[name='".toList) ++ nameAttr ++ ("']".toList))

/-- `fmt.Sprintf("#%s", config.FormID)`. -/
def formSelector (formID : S) : S := '#' :: formID

/-- `fmt.Sprintf("#%s input[type='submit'], #%s button[type='submit']", ...)`. -/
def submitSelector (formID : S) : S :=
  '#' :: (formID ++ (" input[type='submit'], #".toList) ++ formID ++ (" button[type='submit']".toList))

/-- The script evaluated (twice) to count submit controls. -/
def querySubmitCount (formID : S) : S :=
  ("document.querySelectorAll(\"".toList) ++ submitSelector formID ++ ("\").length".toList)

/-- The browser-operation trace of `handleForm` (main.go:929-988);
`submitCount` is the runtime value of the `querySelectorAll(...).length`
evaluation. -/
def handleFormActions (config : Config) (isLiveView : Bool) (submitCount : Nat) :
    List BrowserAction :=
  (config.Inputs.flatMap fun inp =>
    [BrowserAction.waitVisible (inputSelector config.FormID inp.Name),
     BrowserAction.clearSel (inputSelector config.FormID inp.Name),
     BrowserAction.sendKeys (inputSelector config.FormID inp.Name) inp.Value]) ++
  (if isLiveView then
    [BrowserAction.sendKeys (formSelector config.FormID) ['\r']]
  else
    [BrowserAction.evalJS (querySubmitCount config.FormID),
     BrowserAction.evalJS (querySubmitCount config.FormID)] ++
    (if 0 < submitCount then [BrowserAction.clickSel (submitSelector config.FormID)]
     else [BrowserAction.sendKeys (formSelector config.FormID) ['\r']]))

/-- The gate at main.go:782-788:
`if config.FormID != "" && len(config.Inputs) > 0 { handleForm(...) }`. -/
def formStep (config : Config) (isLiveView : Bool) (submitCount : Nat) : List BrowserAction :=
  if config.FormID ≠ [] ∧ 0 < config.Inputs.length then
    handleFormActions config isLiveView submitCount
  else []

/-! ### Step equations for `parseLoop` -/

theorem parseLoop_nil (cfg : Config) : parseLoop cfg [] = some cfg := by
  rw [parseLoop]

theorem parseLoop_cons (cfg : Config) (arg : S) (rest : List S) :
    parseLoop cfg (arg :: rest) =
      (match parseStep cfg arg rest with
       | none => none
       | some (config', k) => parseLoop config' (rest.drop k)) := by
  rw [parseLoop]

theorem pl_help (cfg : Config) (rest : List S) :
    parseLoop cfg ("--help".toList :: rest) = none := by
  rw [parseLoop_cons, show parseStep cfg ("--help".toList) rest = none from rfl]

theorem pl_quickstart (cfg : Config) (rest : List S) :
    parseLoop cfg ("--quickstart".toList :: rest) = none := by
  rw [parseLoop_cons, show parseStep cfg ("--quickstart".toList) rest = none from rfl]

theorem pl_raw (cfg : Config) (rest : List S) :
    parseLoop cfg ("--raw".toList :: rest) = parseLoop { cfg with RawFlag := true } rest := by
  rw [parseLoop_cons,
    show parseStep cfg ("--raw".toList) rest = some ({ cfg with RawFlag := true }, 0) from rfl]
  rfl

theorem pl_trunc_nil (cfg : Config) : parseLoop cfg ["--truncate-after".toList] = some cfg := by
  rw [parseLoop_cons,
    show parseStep cfg ("--truncate-after".toList) [] = some (cfg, 0) from rfl]
  exact parseLoop_nil cfg

theorem pl_trunc_cons (cfg : Config) (v : S) (rest : List S) :
    parseLoop cfg ("--truncate-after".toList :: v :: rest) =
      (match atoi v with
       | some val =>
         if 0 < val then parseLoop { cfg with TruncateAfter := val } rest
         else parseLoop cfg rest
       | none => parseLoop cfg rest) := by
  rw [parseLoop_cons,
    show parseStep cfg ("--truncate-after".toList) (v :: rest) =
      (match atoi v with
       | some val =>
         if 0 < val then some ({ cfg with TruncateAfter := val }, 1)
         else some (cfg, 1)
       | none => some (cfg, 1)) from rfl]
  rcases atoi v with _ | val
  · rfl
  · by_cases hv : 0 < val <;> simp [hv]

theorem pl_screenshot_cons (cfg : Config) (v : S) (rest : List S) :
    parseLoop cfg ("--screenshot".toList :: v :: rest) =
      parseLoop { cfg with ScreenshotPath := v } rest := by
  rw [parseLoop_cons,
    show parseStep cfg ("--screenshot".toList) (v :: rest)
      = some ({ cfg with ScreenshotPath := v }, 1) from rfl]
  rfl

theorem pl_form_cons (cfg : Config) (v : S) (rest : List S) :
    parseLoop cfg ("--form".toList :: v :: rest) = parseLoop { cfg with FormID := v } rest := by
  rw [parseLoop_cons,
    show parseStep cfg ("--form".toList) (v :: rest) = some ({ cfg with FormID := v }, 1) from rfl]
  rfl

theorem pl_input_cons (cfg : Config) (nameArg t : S) (rest : List S) :
    parseLoop cfg ("--input".toList :: nameArg :: t :: rest) =
      (if t = "--value".toList then
         match rest with
         | [] => some cfg
         | v :: rest4 =>
           parseLoop { cfg with Inputs := cfg.Inputs ++ [{ Name := nameArg, Value := v }] } rest4
       else parseLoop cfg (t :: rest)) := by
  rw [parseLoop_cons,
    show parseStep cfg ("--input".toList) (nameArg :: t :: rest) =
      (if t = "--value".toList then
         match rest with
         | [] => some (cfg, 2)
         | v :: rest4 =>
           some ({ cfg with Inputs := cfg.Inputs ++ [{ Name := nameArg, Value := v }] }, 3)
       else some (cfg, 1)) from rfl]
  by_cases ht : t = "--value".toList
  · rw [if_pos ht, if_pos ht]
    rcases rest with _ | ⟨v, rest4⟩
    · exact parseLoop_nil cfg
    · rfl
  · rw [if_neg ht, if_neg ht]
    rfl

theorem pl_input_val (cfg : Config) (nameArg v : S) (rest : List S) :
    parseLoop cfg ("--input".toList :: nameArg :: "--value".toList :: v :: rest) =
      parseLoop { cfg with Inputs := cfg.Inputs ++ [{ Name := nameArg, Value := v }] } rest := by
  rw [pl_input_cons, if_pos rfl]

theorem pl_input_other (cfg : Config) (nameArg t : S) (rest : List S)
    (ht : ¬ t = "--value".toList) :
    parseLoop cfg ("--input".toList :: nameArg :: t :: rest) = parseLoop cfg (t :: rest) := by
  rw [pl_input_cons, if_neg ht]

theorem pl_value (cfg : Config) (rest : List S) :
    parseLoop cfg ("--value".toList :: rest) = parseLoop cfg rest := by
  rw [parseLoop_cons, show parseStep cfg ("--value".toList) rest = some (cfg, 0) from rfl]
  rfl

theorem pl_afterSubmit_cons (cfg : Config) (v : S) (rest : List S) :
    parseLoop cfg ("--after-submit".toList :: v :: rest) =
      parseLoop { cfg with AfterSubmitURL := ensureProtocol v } rest := by
  rw [parseLoop_cons,
    show parseStep cfg ("--after-submit".toList) (v :: rest)
      = some ({ cfg with AfterSubmitURL := ensureProtocol v }, 1) from rfl]
  rfl

theorem pl_js_cons (cfg : Config) (v : S) (rest : List S) :
    parseLoop cfg ("--js".toList :: v :: rest) = parseLoop { cfg with JSCode := v } rest := by
  rw [parseLoop_cons,
    show parseStep cfg ("--js".toList) (v :: rest) = some ({ cfg with JSCode := v }, 1) from rfl]
  rfl

theorem pl_profile_cons (cfg : Config) (v : S) (rest : List S) :
    parseLoop cfg ("--profile".toList :: v :: rest) = parseLoop { cfg with Profile := v } rest := by
  rw [parseLoop_cons,
    show parseStep cfg ("--profile".toList) (v :: rest) = some ({ cfg with Profile := v }, 1) from rfl]
  rfl

theorem pl_headful (cfg : Config) (rest : List S) :
    parseLoop cfg ("--headful".toList :: rest) = parseLoop { cfg with Headful := true } rest := by
  rw [parseLoop_cons,
    show parseStep cfg ("--headful".toList) rest = some ({ cfg with Headful := true }, 0) from rfl]
  rfl

theorem pl_windowSize_cons (cfg : Config) (v : S) (rest : List S) :
    parseLoop cfg ("--window-size".toList :: v :: rest) =
      parseLoop { cfg with WindowSize := v } rest := by
  rw [parseLoop_cons,
    show parseStep cfg ("--window-size".toList) (v :: rest)
      = some ({ cfg with WindowSize := v }, 1) from rfl]
  rfl

theorem pl_session_cons (cfg : Config) (v : S) (rest : List S) :
    parseLoop cfg ("--session".toList :: v :: rest) = parseLoop { cfg with Session := v } rest := by
  rw [parseLoop_cons,
    show parseStep cfg ("--session".toList) (v :: rest) = some ({ cfg with Session := v }, 1) from rfl]
  rfl

theorem pl_stop (cfg : Config) (rest : List S) :
    parseLoop cfg ("--stop".toList :: rest) = parseLoop { cfg with StopSession := true } rest := by
  rw [parseLoop_cons,
    show parseStep cfg ("--stop".toList) rest = some ({ cfg with StopSession := true }, 0) from rfl]
  rfl

theorem pl_stealth (cfg : Config) (rest : List S) :
    parseLoop cfg ("--stealth".toList :: rest) = parseLoop { cfg with Stealth := true } rest := by
  rw [parseLoop_cons,
    show parseStep cfg ("--stealth".toList) rest = some ({ cfg with Stealth := true }, 0) from rfl]
  rfl

theorem pl_default (cfg : Config) (arg : S) (rest : List S)
    (h1 : ¬ arg = "--help".toList) (h2 : ¬ arg = "--quickstart".toList)
    (h3 : ¬ arg = "--raw".toList) (h4 : ¬ arg = "--truncate-after".toList)
    (h5 : ¬ arg = "--screenshot".toList) (h6 : ¬ arg = "--form".toList)
    (h7 : ¬ arg = "--input".toList) (h8 : ¬ arg = "--value".toList)
    (h9 : ¬ arg = "--after-submit".toList) (h10 : ¬ arg = "--js".toList)
    (h11 : ¬ arg = "--profile".toList) (h12 : ¬ arg = "--headful".toList)
    (h13 : ¬ arg = "--window-size".toList) (h14 : ¬ arg = "--session".toList)
    (h15 : ¬ arg = "--stop".toList) (h16 : ¬ arg = "--stealth".toList) :
    parseLoop cfg (arg :: rest) =
      parseLoop
        (if cfg.URL = [] ∧ isPre ("--".toList) arg = false then { cfg with URL := arg }
         else cfg) rest := by
  rw [parseLoop_cons, parseStep.eq_def]
  rw [if_neg h1, if_neg h2, if_neg h3, if_neg h4, if_neg h5, if_neg h6, if_neg h7, if_neg h8,
    if_neg h9, if_neg h10, if_neg h11, if_neg h12, if_neg h13, if_neg h14, if_neg h15, if_neg h16]
  rfl

/-! ### Invariants of the flag loop -/

/-- A `--truncate-after` value the Go code rejects: `strconv.Atoi` errs, or
the parsed value is not positive. -/
def malformedTrunc (v : S) : Bool :=
  match atoi v with
  | some val => decide (val ≤ 0)
  | none => true

/-- Every token following a `--truncate-after` token is malformed (or there
is no such token). -/
def truncSafe : List S → Bool
  | [] => true
  | [_] => true
  | a :: v :: rest =>
    (if a = "--truncate-after".toList then malformedTrunc v else true) && truncSafe (v :: rest)

theorem truncSafe_tail (l : List S) (a : S) (h : truncSafe (a :: l) = true) :
    truncSafe l = true := by
  rcases l with _ | ⟨b, l'⟩
  · rfl
  · exact (Bool.and_eq_true _ _ |>.mp h).2

theorem truncSafe_drop : ∀ (k : Nat) (l : List S), truncSafe l = true →
    truncSafe (l.drop k) = true := by
  intro k
  induction k with
  | zero => intro l h; exact h
  | succ n ih =>
    intro l h
    rcases l with _ | ⟨a, l'⟩
    · exact h
    · exact ih l' (truncSafe_tail l' a h)

/-- How one `parseStep` can change the `TruncateAfter` and `Session` fields:
`TruncateAfter` changes only on `--truncate-after` with a well-formed
positive value, `Session` only on `--session`. -/
theorem parseStep_fields (c : Config) (a : S) (r : List S) (c' : Config) (k : Nat)
    (h : parseStep c a r = some (c', k)) :
    (c'.TruncateAfter = c.TruncateAfter ∨
      (a = "--truncate-after".toList ∧ 0 < c'.TruncateAfter ∧
        ∃ v r', r = v :: r' ∧ atoi v = some c'.TruncateAfter)) ∧
    (c'.Session = c.Session ∨ a = "--session".toList) := by
  rw [parseStep.eq_def] at h
  by_cases h1 : a = "--help".toList
  · rw [if_pos h1] at h; exact absurd h (by simp)
  rw [if_neg h1] at h
  by_cases h2 : a = "--quickstart".toList
  · rw [if_pos h2] at h; exact absurd h (by simp)
  rw [if_neg h2] at h
  by_cases h3 : a = "--raw".toList
  · rw [if_pos h3] at h
    simp only [Option.some.injEq, Prod.mk.injEq] at h
    obtain ⟨hc, hk⟩ := h; subst hc
    exact ⟨Or.inl rfl, Or.inl rfl⟩
  rw [if_neg h3] at h
  by_cases h4 : a = "--truncate-after".toList
  · rw [if_pos h4] at h
    rcases r with _ | ⟨v, r'⟩
    · simp only [Option.some.injEq, Prod.mk.injEq] at h
      obtain ⟨hc, hk⟩ := h; subst hc
      exact ⟨Or.inl rfl, Or.inl rfl⟩
    · have h0 : (match atoi v with
          | some val => if 0 < val then some ({ c with TruncateAfter := val }, 1)
            else some (c, 1)
          | none => some (c, 1)) = some (c', k) := h
      rcases hav : atoi v with _ | val <;> rw [hav] at h0
      · simp only [Option.some.injEq, Prod.mk.injEq] at h0
        obtain ⟨hc, hk⟩ := h0; subst hc
        exact ⟨Or.inl rfl, Or.inl rfl⟩
      · have h' : (if 0 < val then some ({ c with TruncateAfter := val }, 1)
            else some (c, 1)) = some (c', k) := h0
        by_cases hv : 0 < val
        · rw [if_pos hv] at h'
          simp only [Option.some.injEq, Prod.mk.injEq] at h'
          obtain ⟨hc, hk⟩ := h'; subst hc
          exact ⟨Or.inr ⟨h4, hv, v, r', rfl, hav⟩, Or.inl rfl⟩
        · rw [if_neg hv] at h'
          simp only [Option.some.injEq, Prod.mk.injEq] at h'
          obtain ⟨hc, hk⟩ := h'; subst hc
          exact ⟨Or.inl rfl, Or.inl rfl⟩
  rw [if_neg h4] at h
  by_cases h5 : a = "--screenshot".toList
  · rw [if_pos h5] at h
    rcases r with _ | ⟨v, r'⟩ <;>
      (simp only [Option.some.injEq, Prod.mk.injEq] at h
       obtain ⟨hc, hk⟩ := h; subst hc
       exact ⟨Or.inl rfl, Or.inl rfl⟩)
  rw [if_neg h5] at h
  by_cases h6 : a = "--form".toList
  · rw [if_pos h6] at h
    rcases r with _ | ⟨v, r'⟩ <;>
      (simp only [Option.some.injEq, Prod.mk.injEq] at h
       obtain ⟨hc, hk⟩ := h; subst hc
       exact ⟨Or.inl rfl, Or.inl rfl⟩)
  rw [if_neg h6] at h
  by_cases h7 : a = "--input".toList
  · rw [if_pos h7] at h
    rcases r with _ | ⟨nameArg, _ | ⟨t, r3⟩⟩
    · simp only [Option.some.injEq, Prod.mk.injEq] at h
      obtain ⟨hc, hk⟩ := h; subst hc
      exact ⟨Or.inl rfl, Or.inl rfl⟩
    · simp only [Option.some.injEq, Prod.mk.injEq] at h
      obtain ⟨hc, hk⟩ := h; subst hc
      exact ⟨Or.inl rfl, Or.inl rfl⟩
    · rcases r3 with _ | ⟨v, r4⟩
      · have h' : (if t = "--value".toList then some (c, 2) else some (c, 1))
            = some (c', k) := h
        by_cases ht : t = "--value".toList
        · rw [if_pos ht] at h'
          simp only [Option.some.injEq, Prod.mk.injEq] at h'
          obtain ⟨hc, hk⟩ := h'; subst hc
          exact ⟨Or.inl rfl, Or.inl rfl⟩
        · rw [if_neg ht] at h'
          simp only [Option.some.injEq, Prod.mk.injEq] at h'
          obtain ⟨hc, hk⟩ := h'; subst hc
          exact ⟨Or.inl rfl, Or.inl rfl⟩
      · have h' : (if t = "--value".toList then
            some ({ c with Inputs := c.Inputs ++ [{ Name := nameArg, Value := v }] }, 3)
            else some (c, 1)) = some (c', k) := h
        by_cases ht : t = "--value".toList
        · rw [if_pos ht] at h'
          simp only [Option.some.injEq, Prod.mk.injEq] at h'
          obtain ⟨hc, hk⟩ := h'; subst hc
          exact ⟨Or.inl rfl, Or.inl rfl⟩
        · rw [if_neg ht] at h'
          simp only [Option.some.injEq, Prod.mk.injEq] at h'
          obtain ⟨hc, hk⟩ := h'; subst hc
          exact ⟨Or.inl rfl, Or.inl rfl⟩
  rw [if_neg h7] at h
  by_cases h8 : a = "--value".toList
  · rw [if_pos h8] at h
    simp only [Option.some.injEq, Prod.mk.injEq] at h
    obtain ⟨hc, hk⟩ := h; subst hc
    exact ⟨Or.inl rfl, Or.inl rfl⟩
  rw [if_neg h8] at h
  by_cases h9 : a = "--after-submit".toList
  · rw [if_pos h9] at h
    rcases r with _ | ⟨v, r'⟩ <;>
      (simp only [Option.some.injEq, Prod.mk.injEq] at h
       obtain ⟨hc, hk⟩ := h; subst hc
       exact ⟨Or.inl rfl, Or.inl rfl⟩)
  rw [if_neg h9] at h
  by_cases h10 : a = "--js".toList
  · rw [if_pos h10] at h
    rcases r with _ | ⟨v, r'⟩ <;>
      (simp only [Option.some.injEq, Prod.mk.injEq] at h
       obtain ⟨hc, hk⟩ := h; subst hc
       exact ⟨Or.inl rfl, Or.inl rfl⟩)
  rw [if_neg h10] at h
  by_cases h11 : a = "--profile".toList
  · rw [if_pos h11] at h
    rcases r with _ | ⟨v, r'⟩ <;>
      (simp only [Option.some.injEq, Prod.mk.injEq] at h
       obtain ⟨hc, hk⟩ := h; subst hc
       exact ⟨Or.inl rfl, Or.inl rfl⟩)
  rw [if_neg h11] at h
  by_cases h12 : a = "--headful".toList
  · rw [if_pos h12] at h
    simp only [Option.some.injEq, Prod.mk.injEq] at h
    obtain ⟨hc, hk⟩ := h; subst hc
    exact ⟨Or.inl rfl, Or.inl rfl⟩
  rw [if_neg h12] at h
  by_cases h13 : a = "--window-size".toList
  · rw [if_pos h13] at h
    rcases r with _ | ⟨v, r'⟩ <;>
      (simp only [Option.some.injEq, Prod.mk.injEq] at h
       obtain ⟨hc, hk⟩ := h; subst hc
       exact ⟨Or.inl rfl, Or.inl rfl⟩)
  rw [if_neg h13] at h
  by_cases h14 : a = "--session".toList
  · rw [if_pos h14] at h
    rcases r with _ | ⟨v, r'⟩
    · simp only [Option.some.injEq, Prod.mk.injEq] at h
      obtain ⟨hc, hk⟩ := h; subst hc
      exact ⟨Or.inl rfl, Or.inl rfl⟩
    · simp only [Option.some.injEq, Prod.mk.injEq] at h
      obtain ⟨hc, hk⟩ := h; subst hc
      exact ⟨Or.inl rfl, Or.inr h14⟩
  rw [if_neg h14] at h
  by_cases h15 : a = "--stop".toList
  · rw [if_pos h15] at h
    simp only [Option.some.injEq, Prod.mk.injEq] at h
    obtain ⟨hc, hk⟩ := h; subst hc
    exact ⟨Or.inl rfl, Or.inl rfl⟩
  rw [if_neg h15] at h
  by_cases h16 : a = "--stealth".toList
  · rw [if_pos h16] at h
    simp only [Option.some.injEq, Prod.mk.injEq] at h
    obtain ⟨hc, hk⟩ := h; subst hc
    exact ⟨Or.inl rfl, Or.inl rfl⟩
  rw [if_neg h16] at h
  by_cases hu : c.URL = [] ∧ isPre ("--".toList) a = false
  · rw [if_pos hu] at h
    simp only [Option.some.injEq, Prod.mk.injEq] at h
    obtain ⟨hc, hk⟩ := h; subst hc
    exact ⟨Or.inl rfl, Or.inl rfl⟩
  · rw [if_neg hu] at h
    simp only [Option.some.injEq, Prod.mk.injEq] at h
    obtain ⟨hc, hk⟩ := h; subst hc
    exact ⟨Or.inl rfl, Or.inl rfl⟩

/-- `parseStep` only returns `none` (the `os.Exit(0)` paths) on `--help` or
`--quickstart`; every other token is handled. -/
theorem parseStep_isSome (c : Config) (a : S) (r : List S)
    (h1 : ¬ a = "--help".toList) (h2 : ¬ a = "--quickstart".toList) :
    ∃ c' k, parseStep c a r = some (c', k) := by
  rw [parseStep.eq_def, if_neg h1, if_neg h2]
  by_cases h3 : a = "--raw".toList
  · rw [if_pos h3]; exact ⟨_, _, rfl⟩
  rw [if_neg h3]
  by_cases h4 : a = "--truncate-after".toList
  · rw [if_pos h4]
    rcases r with _ | ⟨v, r'⟩
    · exact ⟨_, _, rfl⟩
    · show ∃ c' k, (match atoi v with
        | some val => if 0 < val then some ({ c with TruncateAfter := val }, 1)
          else some (c, 1)
        | none => some (c, 1)) = some (c', k)
      rcases atoi v with _ | val
      · exact ⟨_, _, rfl⟩
      · by_cases hv : 0 < val
        · refine ⟨{ c with TruncateAfter := val }, 1, ?_⟩
          show (if 0 < val then some ({ c with TruncateAfter := val }, 1)
            else some (c, 1)) = some ({ c with TruncateAfter := val }, 1)
          rw [if_pos hv]
        · refine ⟨c, 1, ?_⟩
          show (if 0 < val then some ({ c with TruncateAfter := val }, 1)
            else some (c, 1)) = some (c, 1)
          rw [if_neg hv]
  rw [if_neg h4]
  by_cases h5 : a = "--screenshot".toList
  · rw [if_pos h5]; rcases r with _ | ⟨v, r'⟩ <;> exact ⟨_, _, rfl⟩
  rw [if_neg h5]
  by_cases h6 : a = "--form".toList
  · rw [if_pos h6]; rcases r with _ | ⟨v, r'⟩ <;> exact ⟨_, _, rfl⟩
  rw [if_neg h6]
  by_cases h7 : a = "--input".toList
  · rw [if_pos h7]
    rcases r with _ | ⟨nameArg, _ | ⟨t, _ | ⟨v, r4⟩⟩⟩
    · exact ⟨_, _, rfl⟩
    · exact ⟨_, _, rfl⟩
    · by_cases ht : t = "--value".toList
      · refine ⟨c, 2, ?_⟩
        show (if t = "--value".toList then some (c, 2) else some (c, 1)) = some (c, 2)
        rw [if_pos ht]
      · refine ⟨c, 1, ?_⟩
        show (if t = "--value".toList then some (c, 2) else some (c, 1)) = some (c, 1)
        rw [if_neg ht]
    · by_cases ht : t = "--value".toList
      · refine ⟨{ c with Inputs := c.Inputs ++ [{ Name := nameArg, Value := v }] }, 3, ?_⟩
        show (if t = "--value".toList then
            some ({ c with Inputs := c.Inputs ++ [{ Name := nameArg, Value := v }] }, 3)
          else some (c, 1))
          = some ({ c with Inputs := c.Inputs ++ [{ Name := nameArg, Value := v }] }, 3)
        rw [if_pos ht]
      · refine ⟨c, 1, ?_⟩
        show (if t = "--value".toList then
            some ({ c with Inputs := c.Inputs ++ [{ Name := nameArg, Value := v }] }, 3)
          else some (c, 1)) = some (c, 1)
        rw [if_neg ht]
  rw [if_neg h7]
  by_cases h8 : a = "--value".toList
  · rw [if_pos h8]; exact ⟨_, _, rfl⟩
  rw [if_neg h8]
  by_cases h9 : a = "--after-submit".toList
  · rw [if_pos h9]; rcases r with _ | ⟨v, r'⟩ <;> exact ⟨_, _, rfl⟩
  rw [if_neg h9]
  by_cases h10 : a = "--js".toList
  · rw [if_pos h10]; rcases r with _ | ⟨v, r'⟩ <;> exact ⟨_, _, rfl⟩
  rw [if_neg h10]
  by_cases h11 : a = "--profile".toList
  · rw [if_pos h11]; rcases r with _ | ⟨v, r'⟩ <;> exact ⟨_, _, rfl⟩
  rw [if_neg h11]
  by_cases h12 : a = "--headful".toList
  · rw [if_pos h12]; exact ⟨_, _, rfl⟩
  rw [if_neg h12]
  by_cases h13 : a = "--window-size".toList
  · rw [if_pos h13]; rcases r with _ | ⟨v, r'⟩ <;> exact ⟨_, _, rfl⟩
  rw [if_neg h13]
  by_cases h14 : a = "--session".toList
  · rw [if_pos h14]; rcases r with _ | ⟨v, r'⟩ <;> exact ⟨_, _, rfl⟩
  rw [if_neg h14]
  by_cases h15 : a = "--stop".toList
  · rw [if_pos h15]; exact ⟨_, _, rfl⟩
  rw [if_neg h15]
  by_cases h16 : a = "--stealth".toList
  · rw [if_pos h16]; exact ⟨_, _, rfl⟩
  rw [if_neg h16]
  exact ⟨_, _, rfl⟩

/-- Preservation along the whole flag loop: `TruncateAfter` survives when
every `--truncate-after` value in the list is malformed, and `Session`
survives when `--session` never occurs. -/
theorem parseLoop_keep : ∀ (n : Nat) (args : List S), args.length ≤ n →
    ∀ (cfg out : Config), parseLoop cfg args = some out →
    (truncSafe args = true → out.TruncateAfter = cfg.TruncateAfter) ∧
    ("--session".toList ∉ args → out.Session = cfg.Session) := by
  intro n
  induction n with
  | zero =>
    intro args hlen cfg out h
    have hnil : args = [] := List.length_eq_zero.mp (Nat.le_zero.mp hlen)
    subst hnil
    rw [parseLoop_nil, Option.some.injEq] at h
    subst h
    exact ⟨fun _ => rfl, fun _ => rfl⟩
  | succ n ih =>
    intro args hlen cfg out h
    rcases args with _ | ⟨a, rest⟩
    · rw [parseLoop_nil, Option.some.injEq] at h
      subst h
      exact ⟨fun _ => rfl, fun _ => rfl⟩
    · rw [parseLoop_cons] at h
      rcases hs : parseStep cfg a rest with _ | ⟨c', k⟩ <;> rw [hs] at h
      · exact absurd h (by simp)
      · have hlen' : (rest.drop k).length ≤ n := by
          simp only [List.length_cons] at hlen
          simp only [List.length_drop]
          omega
        have ihr := ih (rest.drop k) hlen' c' out h
        have hf := parseStep_fields cfg a rest c' k hs
        constructor
        · intro hsafe
          rw [ihr.1 (truncSafe_drop k rest (truncSafe_tail rest a hsafe))]
          rcases hf.1 with hEq | ⟨ha, hpos, v, r', hr, hav⟩
          · exact hEq
          · exfalso
            subst ha
            subst hr
            have hm : malformedTrunc v = true := by
              have := (Bool.and_eq_true _ _ |>.mp hsafe).1
              rw [if_pos rfl] at this
              exact this
            rw [malformedTrunc, hav] at hm
            simp only [decide_eq_true_eq] at hm
            omega
        · intro hmem
          have hmem' : "--session".toList ∉ rest.drop k := fun hx =>
            hmem (List.mem_cons_of_mem _ ((List.drop_sublist k rest).subset hx))
          rw [ihr.2 hmem']
          rcases hf.2 with hEq | ha
          · exact hEq
          · exact absurd (ha ▸ List.mem_cons_self a rest) hmem

/-- The flag loop never fails on a list free of `--help` and
`--quickstart`: some configuration always comes back. -/
theorem parseLoop_total : ∀ (n : Nat) (args : List S), args.length ≤ n →
    "--help".toList ∉ args → "--quickstart".toList ∉ args →
    ∀ cfg : Config, ∃ out, parseLoop cfg args = some out := by
  intro n
  induction n with
  | zero =>
    intro args hlen _ _ cfg
    have hnil : args = [] := List.length_eq_zero.mp (Nat.le_zero.mp hlen)
    subst hnil
    exact ⟨cfg, parseLoop_nil cfg⟩
  | succ n ih =>
    intro args hlen hh hq cfg
    rcases args with _ | ⟨a, rest⟩
    · exact ⟨cfg, parseLoop_nil cfg⟩
    · have ha1 : ¬ a = "--help".toList := fun hx =>
        hh (hx ▸ List.mem_cons_self a rest)
      have ha2 : ¬ a = "--quickstart".toList := fun hx =>
        hq (hx ▸ List.mem_cons_self a rest)
      obtain ⟨c', k, hs⟩ := parseStep_isSome cfg a rest ha1 ha2
      have hlen' : (rest.drop k).length ≤ n := by
        simp only [List.length_cons] at hlen
        simp only [List.length_drop]
        omega
      have hh' : "--help".toList ∉ rest.drop k := fun hx =>
        hh (List.mem_cons_of_mem _ ((List.drop_sublist k rest).subset hx))
      have hq' : "--quickstart".toList ∉ rest.drop k := fun hx =>
        hq (List.mem_cons_of_mem _ ((List.drop_sublist k rest).subset hx))
      obtain ⟨out, hout⟩ := ih (rest.drop k) hlen' hh' hq' c'
      refine ⟨out, ?_⟩
      rw [parseLoop_cons, hs]
      exact hout

/-! ### The claims -/

/-- Claim C1, counterexample: for `text = " ab"` and limit 1 the cleaned
text has length 2, but the appended notice states 3 (the length of the raw
`html2text` output before cleaning), not the cleaned length. -/
theorem c1_counterexample :
    (cleanMarkdown (" ab".toList)).length = 2 ∧
    truncateMarkdown (" ab".toList) 1 = 'a' :: truncNotice 1 3 ∧
    truncNotice 1 3 ≠ truncNotice 1 2 := by
  have hc : cleanMarkdown (" ab".toList) = ['a', 'b'] := by
    rw [clean_eval _ (by decide)]
    decide
  refine ⟨by rw [hc]; decide, ?_, by decide⟩
  simp only [truncateMarkdown]
  rw [hc]
  decide

/-- Claim C1 (amended): when the cleaned text is longer than the limit, the
truncated output is the limit-length cut of the cleaned text followed by the
notice, so its length is the limit plus the notice's length; the notice
states the limit and `len(text)`, the length of the text before cleaning
(main.go:882-883), not the cleaned length. -/
theorem c1_truncation_length_and_notice (text : S) (limit : Int)
    (h : limit < ((cleanMarkdown text).length : Int)) :
    truncateMarkdown text limit =
      (cleanMarkdown text).take limit.toNat ++ truncNotice limit text.length ∧
    (truncateMarkdown text limit).length =
      limit.toNat + (truncNotice limit text.length).length := by
  have he : truncateMarkdown text limit =
      (cleanMarkdown text).take limit.toNat ++ truncNotice limit text.length := by
    simp only [truncateMarkdown]
    rw [if_pos h]
  refine ⟨he, ?_⟩
  rw [he, List.length_append, List.length_take]
  omega

/-- Claim C1, witness at `text = " ab"`, limit 1. -/
theorem c1_witness :
    truncateMarkdown (" ab".toList) 1 =
      (cleanMarkdown (" ab".toList)).take ((1 : Int)).toNat ++
        truncNotice 1 ((" ab".toList)).length ∧
    (truncateMarkdown (" ab".toList) 1).length =
      ((1 : Int)).toNat + (truncNotice 1 ((" ab".toList)).length).length :=
  c1_truncation_length_and_notice (" ab".toList) 1
    (by rw [clean_eval _ (by decide)]; decide)

/-- Claim C2, counterexample: `cleanMarkdown` is not idempotent.  On
`"  * a"` the whole-document trim exposes a `* ` bullet that the per-line
pass (which ran before the trim) never saw, so a second run still changes
the text. -/
theorem c2_counterexample :
    cleanMarkdown (cleanMarkdown ("  * a".toList)) ≠ cleanMarkdown ("  * a".toList) := by
  have h1 : cleanMarkdown ("  * a".toList) = "* a".toList := by
    rw [clean_eval _ (by decide)]
    decide
  rw [h1]
  have h2 : cleanMarkdown ("* a".toList) = "- a".toList := by
    rw [clean_eval _ (by decide)]
    decide
  rw [h2]
  decide

/-- Claim C2 (amended): `cleanMarkdown` is idempotent on every input whose
cleaned form does not itself start with a `* ` bullet (the only way the
final `TrimSpace` can expose work for a second pass). -/
theorem c2_clean_idempotent_unless_star (s : S)
    (h : isPre bulStar (cleanMarkdown s) = false) :
    cleanMarkdown (cleanMarkdown s) = cleanMarkdown s :=
  clean_idem_of_not_star s h

/-- Claim C2, witness at `s = "hello"`. -/
theorem c2_witness :
    cleanMarkdown (cleanMarkdown ("hello".toList)) = cleanMarkdown ("hello".toList) :=
  c2_clean_idempotent_unless_star ("hello".toList)
    (by rw [clean_eval _ (by decide)]; decide)

/-- Claim C3, counterexample: the bullet pass keeps everything after the
two-character marker, so `"*  a"` (two spaces) becomes `"-  a"`, not a
`- ` bullet with exactly one space after the marker. -/
theorem c3_counterexample :
    cleanMarkdown ("*  a".toList) = ('-' :: ' ' :: ' ' :: ['a']) := by
  rw [clean_eval _ (by decide)]
  decide

/-- Claim C3 (amended): the cleaned output never contains three consecutive
newlines, and a `* `-bullet line is rewritten to `- ` followed by the rest
of the line after the marker (one further `- ` prefix stripped), which makes
it a `- `-bullet line but does not normalise the spacing after the marker. -/
theorem c3_no_triple_newline_and_bullets (s l : S) (hl : isPre bulStar l = true) :
    containsSub nnn (cleanMarkdown s) = false ∧
    fixLine l = bulDash ++ trimPre bulDash (l.drop 2) ∧
    isPre bulDash (fixLine l) = true :=
  ⟨clean_no3 s, fixLine_star l hl, by rw [fixLine_star l hl]; exact isPre_self_append _ _⟩

/-- Claim C3, witness at `s = "a"`, `l = "* x"`. -/
theorem c3_witness :
    containsSub nnn (cleanMarkdown ("a".toList)) = false ∧
    fixLine ("* x".toList) = bulDash ++ trimPre bulDash (("* x".toList).drop 2) ∧
    isPre bulDash (fixLine ("* x".toList)) = true :=
  c3_no_triple_newline_and_bullets ("a".toList) ("* x".toList) (by decide)

/-- Claim C4 (confirmed): on any token list whose every `--truncate-after`
value is non-numeric or non-positive, the parsed configuration keeps the
default limit 100000; and on any list free of `--help`/`--quickstart` the
parser returns a configuration rather than aborting. -/
theorem c4_truncate_after_soft_fail (args : List S) (hs : truncSafe args = true) :
    (∀ out, parseArgs args = some out → out.TruncateAfter = 100000) ∧
    ("--help".toList ∉ args → "--quickstart".toList ∉ args →
      ∃ out, parseArgs args = some out) := by
  constructor
  · intro out h
    have hk := (parseLoop_keep args.length args le_rfl defaultConfig out h).1 hs
    rw [hk]
    rfl
  · intro hh hq
    exact parseLoop_total args.length args le_rfl hh hq defaultConfig

/-- Claim C4, witness: `--truncate-after abc` parses to the default
configuration, whose limit is 100000. -/
theorem c4_witness : defaultConfig.TruncateAfter = 100000 :=
  (c4_truncate_after_soft_fail ["--truncate-after".toList, "abc".toList] (by decide)).1
    defaultConfig
    (by
      show parseLoop defaultConfig ["--truncate-after".toList, "abc".toList]
        = some defaultConfig
      rw [pl_trunc_cons, show atoi ("abc".toList) = none from rfl]
      exact parseLoop_nil defaultConfig)

/-- Claim C5 (confirmed): if no split of the window-size string at an `x`
yields two `strconv.Atoi`-parsable parts, `parseWindowSize` returns the
default `(1280, 720)`. -/
theorem c5_window_size_default (s : S)
    (h : ∀ a b : S, s = a ++ 'x' :: b → atoi a = none ∨ atoi b = none) :
    parseWindowSize s = (1280, 720) := by
  rcases hsp : goSplit 'x' s with _ | ⟨a, _ | ⟨b, _ | ⟨p, t⟩⟩⟩
  · exact absurd hsp (goSplit_ne_nil 'x' s)
  · unfold parseWindowSize
    rw [hsp]
  · have hj : s = goJoin 'x' (goSplit 'x' s) := (goJoin_goSplit 'x' s).symm
    rw [hsp] at hj
    have hj' : s = a ++ 'x' :: b := by
      rw [hj]
      rfl
    have hw : parseWindowSize s = windowPair a b := by
      unfold parseWindowSize
      rw [hsp]
    rw [hw]
    rcases h a b hj' with hna | hnb
    · unfold windowPair
      rw [hna]
    · unfold windowPair
      rw [hnb]
      rcases hatoi : atoi a with _ | w <;> rfl
  · unfold parseWindowSize
    rw [hsp]

/-- Claim C5, witness at `"bogus"`. -/
theorem c5_witness : parseWindowSize ("bogus".toList) = (1280, 720) :=
  c5_window_size_default ("bogus".toList) (by
    intro a b hab
    have hx : 'x' ∈ ("bogus".toList) := by
      rw [hab]
      exact List.mem_append_right _ (List.mem_cons_self _ _)
    exact absurd hx (by decide))

/-- Claim C6 (confirmed): `--input <name>` adds the Form Input pair exactly
when followed by `--value <v>`; with any other (or no) following token the
configuration is unchanged and parsing continues (or ends) normally. -/
theorem c6_input_requires_value (cfg : Config) (nameArg v t : S) (rest : List S)
    (ht : ¬ t = "--value".toList) :
    parseLoop cfg ("--input".toList :: nameArg :: t :: rest) = parseLoop cfg (t :: rest) ∧
    parseLoop cfg ("--input".toList :: nameArg :: "--value".toList :: v :: rest) =
      parseLoop { cfg with Inputs := cfg.Inputs ++ [{ Name := nameArg, Value := v }] } rest ∧
    parseLoop cfg ["--input".toList] = some cfg ∧
    parseLoop cfg ["--input".toList, nameArg] = some cfg ∧
    parseLoop cfg ["--input".toList, nameArg, "--value".toList] = some cfg := by
  refine ⟨pl_input_other cfg nameArg t rest ht, pl_input_val cfg nameArg v rest, ?_, ?_, ?_⟩
  · rw [parseLoop_cons, show parseStep cfg ("--input".toList) [] = some (cfg, 0) from rfl]
    exact parseLoop_nil cfg
  · rw [parseLoop_cons,
      show parseStep cfg ("--input".toList) [nameArg] = some (cfg, 1) from rfl]
    exact parseLoop_nil cfg
  · rw [parseLoop_cons,
      show parseStep cfg ("--input".toList) [nameArg, "--value".toList] = some (cfg, 2) from rfl]
    exact parseLoop_nil cfg

/-- Claim C6, witness at `cfg = defaultConfig`, `name = "user"`,
`v = "alice"`, `t = "next"`. -/
theorem c6_witness :
    parseLoop defaultConfig ("--input".toList :: "user".toList :: "next".toList :: []) =
      parseLoop defaultConfig ("next".toList :: []) ∧
    parseLoop defaultConfig
        ("--input".toList :: "user".toList :: "--value".toList :: "alice".toList :: []) =
      parseLoop { defaultConfig with
        Inputs := defaultConfig.Inputs ++ [{ Name := "user".toList, Value := "alice".toList }] }
        [] ∧
    parseLoop defaultConfig ["--input".toList] = some defaultConfig ∧
    parseLoop defaultConfig ["--input".toList, "user".toList] = some defaultConfig ∧
    parseLoop defaultConfig ["--input".toList, "user".toList, "--value".toList] =
      some defaultConfig :=
  c6_input_requires_value defaultConfig ("user".toList) ("alice".toList) ("next".toList) []
    (by decide)

/-- Claim C7, counterexample: invoking with the bare URL token
`example.com` produces a header whose middle line is the protocol-normalised
`http://example.com`, not the token verbatim. -/
theorem c7_counterexample :
    parseArgs ["example.com".toList] =
      some { defaultConfig with URL := "example.com".toList } ∧
    renderMarkdown { defaultConfig with URL := "example.com".toList } [] [] =
      ("==========================\nhttp://example.com\n==========================\n\n").toList ∧
    isPre (headerEq ++ '\n' :: ("example.com".toList ++ ['\n']))
      (renderMarkdown { defaultConfig with URL := "example.com".toList } [] []) = false := by
  have hp : parseArgs ["example.com".toList] =
      some { defaultConfig with URL := "example.com".toList } := by
    show parseLoop defaultConfig ["example.com".toList] = _
    rw [pl_default defaultConfig ("example.com".toList) [] (by decide) (by decide) (by decide)
      (by decide) (by decide) (by decide) (by decide) (by decide) (by decide) (by decide)
      (by decide) (by decide) (by decide) (by decide) (by decide) (by decide)]
    rw [if_pos ⟨rfl, by decide⟩]
    exact parseLoop_nil _
  have hc : cleanMarkdown ([] : S) = [] := by
    rw [clean_eval _ (by decide)]
    rfl
  have hT : truncateMarkdown ([] : S) (100000 : Int) = [] := by
    simp only [truncateMarkdown]
    rw [hc]
    rw [if_neg (by decide)]
  have hrm : renderMarkdown { defaultConfig with URL := "example.com".toList } [] [] =
      ("==========================\nhttp://example.com\n==========================\n\n").toList := by
    unfold renderMarkdown
    show assembleResult (ensureProtocol ("example.com".toList)) (truncateMarkdown [] 100000) [] = _
    rw [hT]
    simp only [assembleResult]
    rw [if_neg (by decide)]
    decide
  exact ⟨hp, hrm, by rw [hrm]; decide⟩

/-- Claim C7 (amended): invoking with a single non-flag token parses it as
the URL; the assembled markdown-mode output (no console messages) is the
26-character `=` line, the protocol-normalised URL `ensureProtocol url`
(the token itself only when it already carries a protocol), the `=` line
again, a blank line, then the body. -/
theorem c7_header_banner (url : S) (text : S)
    (h1 : ¬ url = "--help".toList) (h2 : ¬ url = "--quickstart".toList)
    (h3 : ¬ url = "--raw".toList) (h4 : ¬ url = "--truncate-after".toList)
    (h5 : ¬ url = "--screenshot".toList) (h6 : ¬ url = "--form".toList)
    (h7 : ¬ url = "--input".toList) (h8 : ¬ url = "--value".toList)
    (h9 : ¬ url = "--after-submit".toList) (h10 : ¬ url = "--js".toList)
    (h11 : ¬ url = "--profile".toList) (h12 : ¬ url = "--headful".toList)
    (h13 : ¬ url = "--window-size".toList) (h14 : ¬ url = "--session".toList)
    (h15 : ¬ url = "--stop".toList) (h16 : ¬ url = "--stealth".toList)
    (hpre : isPre ("--".toList) url = false) :
    parseArgs [url] = some { defaultConfig with URL := url } ∧
    headerEq.length = 26 ∧
    renderMarkdown { defaultConfig with URL := url } text [] =
      headerEq ++ '\n' :: (ensureProtocol url ++ '\n' :: (headerEq ++ '\n' :: '\n' ::
        truncateMarkdown text 100000)) := by
  refine ⟨?_, by decide, ?_⟩
  · show parseLoop defaultConfig [url] = _
    rw [pl_default defaultConfig url [] h1 h2 h3 h4 h5 h6 h7 h8 h9 h10 h11 h12 h13 h14 h15 h16]
    rw [if_pos ⟨rfl, hpre⟩]
    exact parseLoop_nil _
  · unfold renderMarkdown
    show assembleResult (ensureProtocol url) (truncateMarkdown text 100000) [] = _
    simp only [assembleResult]
    rw [if_neg (by decide)]

/-- Claim C7, witness at `url = "http://example.com"` (already carrying a
protocol, so shown verbatim). -/
theorem c7_witness :
    parseArgs ["http://example.com".toList] =
      some { defaultConfig with URL := "http://example.com".toList } ∧
    headerEq.length = 26 ∧
    renderMarkdown { defaultConfig with URL := "http://example.com".toList } [] [] =
      headerEq ++ '\n' :: (ensureProtocol ("http://example.com".toList) ++ '\n' ::
        (headerEq ++ '\n' :: '\n' :: truncateMarkdown [] 100000)) :=
  c7_header_banner ("http://example.com".toList) [] (by decide) (by decide) (by decide)
    (by decide) (by decide) (by decide) (by decide) (by decide) (by decide) (by decide)
    (by decide) (by decide) (by decide) (by decide) (by decide) (by decide) (by decide)

/-- Claim C8, counterexample: `--js --stop example.com` contains `--stop`
and no `--session`, yet `--stop` is swallowed as the value of `--js`
(main.go:1046-1050), `StopSession` stays false and the program proceeds to
the full request. -/
theorem c8_counterexample :
    "--stop".toList ∈ ["--js".toList, "--stop".toList, "example.com".toList] ∧
    "--session".toList ∉ ["--js".toList, "--stop".toList, "example.com".toList] ∧
    mainDispatch ["--js".toList, "--stop".toList, "example.com".toList] =
      MainOutcome.runRequest
        { defaultConfig with JSCode := "--stop".toList, URL := "example.com".toList } := by
  refine ⟨by decide, by decide, ?_⟩
  have hp : parseArgs ["--js".toList, "--stop".toList, "example.com".toList] =
      some { defaultConfig with JSCode := "--stop".toList, URL := "example.com".toList } := by
    show parseLoop defaultConfig _ = _
    rw [pl_js_cons]
    rw [pl_default _ ("example.com".toList) [] (by decide) (by decide) (by decide)
      (by decide) (by decide) (by decide) (by decide) (by decide) (by decide) (by decide)
      (by decide) (by decide) (by decide) (by decide) (by decide) (by decide)]
    rw [if_pos ⟨rfl, by decide⟩]
    exact parseLoop_nil _
  unfold mainDispatch
  rw [hp]
  rfl

/-- Claim C8 (amended): when the PARSED configuration has `StopSession`
set and `--session` never occurs among the tokens, the session id is still
the empty default, so `main` takes the error branch: exit status 1 after
printing the message that names the missing `--session` flag.  (The token
`--stop` merely occurring in the list is not sufficient: another flag can
consume it as its value, see the counterexample.) -/
theorem c8_stop_requires_session (args : List S) (cfg : Config)
    (hp : parseArgs args = some cfg) (hstop : cfg.StopSession = true)
    (hses : "--session".toList ∉ args) :
    cfg.Session = [] ∧
    mainDispatch args = MainOutcome.stopErrExit1 ∧
    containsSub ("--session".toList) stopErrMsg = true := by
  have hSes : cfg.Session = [] := by
    have hk := (parseLoop_keep args.length args le_rfl defaultConfig cfg hp).2 hses
    rw [hk]
    rfl
  refine ⟨hSes, ?_, by decide⟩
  unfold mainDispatch
  rw [hp]
  show (if cfg.StopSession then
      (if cfg.Session = [] then MainOutcome.stopErrExit1
       else MainOutcome.stopRun cfg.Session)
    else if cfg.URL = [] then MainOutcome.usageExit1 else MainOutcome.runRequest cfg)
    = MainOutcome.stopErrExit1
  rw [hstop, hSes]
  simp

/-- Claim C8, witness at `args = ["--stop"]`. -/
theorem c8_witness :
    ({ defaultConfig with StopSession := true } : Config).Session = [] ∧
    mainDispatch ["--stop".toList] = MainOutcome.stopErrExit1 ∧
    containsSub ("--session".toList) stopErrMsg = true :=
  c8_stop_requires_session ["--stop".toList] { defaultConfig with StopSession := true }
    (by
      show parseLoop defaultConfig ["--stop".toList] = _
      rw [pl_stop]
      exact parseLoop_nil _)
    rfl (by decide)

/-- Claim C9 (confirmed): `ensureProtocol` prepends `http://` exactly when
the string starts with neither `http://` nor `https://`, its output always
carries one of the two prefixes, it is idempotent, and it is applied to the
`--after-submit` value at parse time and to the target URL in the output
header. -/
theorem c9_ensure_protocol (url v : S) (cfg : Config) (rest : List S)
    (text : S) (msgs : List S) :
    (isPre httpPre url = false ∧ isPre httpsPre url = false →
      ensureProtocol url = httpPre ++ url) ∧
    (isPre httpPre url = true ∨ isPre httpsPre url = true → ensureProtocol url = url) ∧
    (isPre httpPre (ensureProtocol url) = true ∨
      isPre httpsPre (ensureProtocol url) = true) ∧
    ensureProtocol (ensureProtocol url) = ensureProtocol url ∧
    parseLoop cfg ("--after-submit".toList :: v :: rest) =
      parseLoop { cfg with AfterSubmitURL := ensureProtocol v } rest ∧
    renderMarkdown cfg text msgs =
      assembleResult (ensureProtocol cfg.URL) (truncateMarkdown text cfg.TruncateAfter) msgs := by
  have hPp : ∀ u : S, isPre httpPre u = false ∧ isPre httpsPre u = false →
      ensureProtocol u = httpPre ++ u := by
    intro u hu
    unfold ensureProtocol
    rw [if_pos hu]
  have hKeep : ∀ u : S, isPre httpPre u = true ∨ isPre httpsPre u = true →
      ensureProtocol u = u := by
    intro u hu
    have hn : ¬ (isPre httpPre u = false ∧ isPre httpsPre u = false) := by
      rcases hu with h | h
      · intro hcon
        rw [h] at hcon
        exact absurd hcon.1 (by simp)
      · intro hcon
        rw [h] at hcon
        exact absurd hcon.2 (by simp)
    unfold ensureProtocol
    rw [if_neg hn]
  have hHas : ∀ u : S, isPre httpPre (ensureProtocol u) = true ∨
      isPre httpsPre (ensureProtocol u) = true := by
    intro u
    by_cases hu : isPre httpPre u = false ∧ isPre httpsPre u = false
    · left
      rw [hPp u hu]
      exact isPre_self_append _ _
    · have hor : isPre httpPre u = true ∨ isPre httpsPre u = true := by
        rcases hA : isPre httpPre u with _ | _
        · rcases hB : isPre httpsPre u with _ | _
          · exact absurd ⟨hA, hB⟩ hu
          · exact Or.inr rfl
        · exact Or.inl rfl
      rw [hKeep u hor]
      exact hor
  exact ⟨hPp url, hKeep url, hHas url, hKeep (ensureProtocol url) (hHas url),
    pl_afterSubmit_cons cfg v rest, rfl⟩

/-- Claim C9, witness at `url = "example.com"`. -/
theorem c9_witness : ensureProtocol ("example.com".toList) = httpPre ++ "example.com".toList :=
  (c9_ensure_protocol ("example.com".toList) ("x".toList) defaultConfig [] [] []).1 (by decide)

/-- Claim C10 (confirmed): the form step runs `handleForm` exactly when a
form id is set AND at least one Form Input exists; with a form id but no
inputs (or inputs but no form id) it performs no browser action at all. -/
theorem c10_form_gate (cfg : Config) (lv : Bool) (n : Nat) :
    (cfg.FormID ≠ [] ∧ 0 < cfg.Inputs.length →
      formStep cfg lv n = handleFormActions cfg lv n) ∧
    (cfg.FormID = [] ∨ cfg.Inputs.length = 0 → formStep cfg lv n = []) := by
  constructor
  · intro hg
    unfold formStep
    rw [if_pos hg]
  · intro hg
    have hng : ¬ (cfg.FormID ≠ [] ∧ 0 < cfg.Inputs.length) := by
      rcases hg with h | h
      · exact fun hcon => hcon.1 h
      · intro hcon
        omega
    unfold formStep
    rw [if_neg hng]

/-- Claim C10, witness: a configuration with `--form f` but no inputs skips
the form step. -/
theorem c10_witness :
    formStep { defaultConfig with FormID := ['f'] } false 0 = [] :=
  (c10_form_gate { defaultConfig with FormID := ['f'] } false 0).2 (Or.inr rfl)
